import Mathlib

/-
Verification of the Portunix release-packaging scripts.

This file gives a shallow embedding of the release-assembly logic of
  scripts/make-release.py            (version validation, goreleaser tag
                                      lifecycle, platform-archive injection)
  scripts/create-platform-archives.py (per-platform archive builder)
  scripts/release/collect_release_notes.py (release-note validation,
                                      aggregation and the CI check mode)
and proves or refutes the frozen specification claims about them.

Modelling conventions:
* Archive members and on-disk files are modelled as association lists from
  member paths to byte contents; a path is its list of `/`-separated
  components (`List String`) and contents are `String`s standing for byte
  strings.  Sequentially writing files (tarfile/zipfile `extractall`,
  `shutil.copy2`) is an insert-or-overwrite fold, so a later write to the
  same path wins, exactly as on a real file system.
* External effects that can fail (extracting a possibly corrupt archive,
  writing one platform archive, running goreleaser) are modelled by
  explicit success flags carried by the inputs; a raised Python exception
  becomes an `Except.error` / an error branch that mirrors the script's
  control flow.
* Python string primitives that the scripts use (`str.split`, `int`,
  `str.startswith`) are re-implemented over `String.data` so that every
  definition evaluates by kernel reduction.  They are modelled on the
  ASCII strings these scripts actually handle; CPython quirks outside that
  range (Unicode digit classes, underscores in int literals) are outside
  the model.
-/

/-! # String primitives used by the scripts -/

/-- Model of Python `str.split(".")`: split on every dot, keeping empty
pieces (so "" splits to [""], "1..2" to ["1", "", "2"]). -/
def splitDotsAux : List Char → List Char → List String
  | [], acc => [String.mk acc.reverse]
  | c :: cs, acc =>
    if c = '.' then String.mk acc.reverse :: splitDotsAux cs []
    else splitDotsAux cs (c :: acc)

/-- Split a string on dots, as Python `s.split(".")` does. -/
def splitDots (s : String) : List String := splitDotsAux s.data []

/-- Accumulate decimal digits into a natural number. -/
def digitsToNat : List Char → Nat → Nat
  | [], acc => acc
  | c :: cs, acc => digitsToNat cs (acc * 10 + (c.toNat - 48))

/-- Model of Python `int(s)` on the ASCII strings these scripts handle:
an optional leading minus sign followed by one or more decimal digits;
anything else raises, which we model as `none`. -/
def pyInt (s : String) : Option Int :=
  match s.data with
  | [] => none
  | '-' :: rest =>
    if rest ≠ [] ∧ rest.all Char.isDigit then some (-(digitsToNat rest 0 : Int))
    else none
  | cs => if cs.all Char.isDigit then some ((digitsToNat cs 0 : Nat) : Int) else none

/-- Model of Python `s.startswith(p)`. -/
def pyStartsWith (s p : String) : Bool := p.data.isPrefixOf s.data

/-- Model of Python `s.isdigit()` on ASCII: nonempty and all decimal digits. -/
def pyIsDigit (s : String) : Bool := !s.data.isEmpty && s.data.all Char.isDigit

/-! # File-system and archive model

Paths are component lists; an archive or a scratch directory is an
association list from paths to contents plus, for archives, the list of
directory entries stored in the archive (tar archives record directories,
the zip archives written by these scripts record only files). -/

/-- Member path inside an archive or a scratch tree, as its components. -/
abbrev MPath := List String

/-- One file member: path and byte content. -/
abbrev FEntry := MPath × String

/-- Write one file: overwrite the first entry with the same path, or append
a new entry.  This is the effect of writing a file into a directory tree. -/
def setKey : List FEntry → MPath → String → List FEntry
  | [], k, v => [(k, v)]
  | (k', v') :: t, k, v =>
    if k' = k then (k, v) :: t else (k', v') :: setKey t k v

/-- Read the content stored at a path (first entry with that path). -/
def lookupKey : List FEntry → MPath → Option String
  | [], _ => none
  | (k', v') :: t, k => if k' = k then some v' else lookupKey t k

/-- Paths of all entries. -/
def keysOf (l : List FEntry) : List MPath := l.map Prod.fst

/-- Sequentially write a list of files into an existing tree: the effect of
extracting archive members in order, or copying files one by one. -/
def writeAll (acc : List FEntry) (l : List FEntry) : List FEntry :=
  l.foldl (fun fs e => setKey fs e.1 e.2) acc

/-- Extract archive members into a fresh scratch directory
(tarfile/zipfile `extractall`): write every member in order into an empty
tree, so a duplicate member path keeps only the last occurrence. -/
def extractF (l : List FEntry) : List FEntry := writeAll [] l

/-- Proper ancestor directories of a path, shortest first. -/
def parentsOf (p : MPath) : List MPath :=
  (List.range (p.length - 1)).map (fun i => p.take (i + 1))

/-- A directory entry together with all its ancestors. -/
def chainOf (p : MPath) : List MPath := parentsOf p ++ [p]

/-- Model of `mkdir(exist_ok=True)`. -/
def insertDirF (ds : List MPath) (d : MPath) : List MPath :=
  if d ∈ ds then ds else ds ++ [d]

/-- An archive on disk: format flag, file members, directory members.
Zip archives created by these scripts carry no directory members. -/
structure Archive where
  isZip : Bool
  files : List FEntry
  dirs : List MPath
deriving DecidableEq

/-- Directories present in the scratch tree after extracting an archive:
every recorded directory entry with its ancestors, plus the ancestors
implied by every extracted file path. -/
def extractDirs (a : Archive) : List MPath :=
  (a.dirs.flatMap chainOf ++ (keysOf a.files).flatMap parentsOf).dedup

/-- Copy the platform archives into the scratch tree under platforms/
(the shutil.copy2 loop of inject_platform_archives): each platform archive
named n with content c is written to platforms/n, overwriting any
pre-existing file there. -/
def copyPlats (fs : List FEntry) (plats : List (String × String)) : List FEntry :=
  writeAll fs (plats.map (fun e => (["platforms", e.1], e.2)))

/-- Source lines 289-320 of make-release.py, for one release archive:
extract it to a fresh scratch directory, create platforms/ if absent, copy
every platform archive into platforms/, then delete the original file and
re-create an archive of the same name from the whole scratch tree (zip
rewriting records only files; tar rewriting records files and the
directories present in the tree). -/
def injectOne (plats : List (String × String)) (a : Archive) : Archive :=
  let fs := copyPlats (extractF a.files) plats
  { isZip := a.isZip
    files := fs
    dirs :=
      if a.isZip then []
      else (insertDirF (extractDirs a) ["platforms"]
             ++ (keysOf fs).flatMap parentsOf).dedup }

/-- One release archive of the dist directory, as seen by the injection
loop: its file name and current contents, plus two environment facts for
this run — whether opening and extracting it succeeds (tarfile/zipfile
raise on a corrupt file, line 293-298) and whether re-creating the archive
after the unlink succeeds (the writes of lines 311-320 can raise too). -/
structure RelArchive where
  name : String
  arch : Archive
  extractOk : Bool
  rewriteOk : Bool
deriving DecidableEq

/-- Final on-disk state of one release archive file: its name and the
valid archive stored there, or none when the file has been deleted (or
left truncated mid-write) and so no longer holds any archive. -/
abbrev DiskFile := String × Option Archive

/-- The on-disk state of an untouched release archive. -/
def presentFile (a : RelArchive) : DiskFile := (a.name, some a.arch)

/-- The for-loop of inject_platform_archives over the release archives
(lines 284-322).  There is no try/except around the body, so the first
exception aborts the loop and propagates out of the whole phase, leaving
every later archive untouched.  The failing archive's own fate depends on
where the exception is raised: an extraction failure (before the unlink of
line 309) leaves its file as it was, but a rewrite failure happens after
archive_path.unlink(), so the original is already deleted and the new
archive is absent or truncated — that archive is destroyed (the crash
window the design notes call out).  Returns the final on-disk state of
every archive file together with the propagated error, if any. -/
def injectLoop (plats : List (String × String)) :
    List RelArchive → List DiskFile × Option String
  | [] => ([], none)
  | a :: rest =>
    if a.extractOk then
      if a.rewriteOk then
        ((a.name, some (injectOne plats a.arch)) :: (injectLoop plats rest).1,
         (injectLoop plats rest).2)
      else ((a.name, none) :: rest.map presentFile,
            some ("Failed to rewrite " ++ a.name))
    else ((a.name, some a.arch) :: rest.map presentFile,
          some ("Failed to extract " ++ a.name))

/-- Source lines 272-325 of make-release.py: the whole injection phase.
The only guard is `platforms_dir.exists()`: when the directory is missing
the phase warns and returns with every archive untouched; otherwise the
loop runs over all release archives with whatever platform archives the
directory holds (possibly none). -/
def inject_platform_archives (platformsDirExists : Bool)
    (plats : List (String × String)) (archives : List RelArchive) :
    List DiskFile × Option String :=
  if platformsDirExists then injectLoop plats archives
  else (archives.map presentFile, none)

/-! ## Association-list lemmas -/

/-- Strict left-biased choice on optional contents. -/
def orO : Option String → Option String → Option String
  | some a, _ => some a
  | none, b => b

theorem orO_none_right (a : Option String) : orO a none = a := by
  cases a <;> rfl

theorem orO_absorb (a b : Option String) : orO a (orO a b) = orO a b := by
  cases a <;> rfl

theorem lookupKey_cons (e : FEntry) (t : List FEntry) (q : MPath) :
    lookupKey (e :: t) q = if e.1 = q then some e.2 else lookupKey t q := rfl

theorem lookupKey_append (l₁ l₂ : List FEntry) (q : MPath) :
    lookupKey (l₁ ++ l₂) q = orO (lookupKey l₁ q) (lookupKey l₂ q) := by
  induction l₁ with
  | nil => rfl
  | cons e t ih =>
    simp only [List.cons_append, lookupKey]
    by_cases h : e.1 = q
    · simp [h, orO]
    · simp [h, ih]

theorem lookupKey_setKey (l : List FEntry) (k : MPath) (v : String) (q : MPath) :
    lookupKey (setKey l k v) q = if k = q then some v else lookupKey l q := by
  induction l with
  | nil => rfl
  | cons e t ih =>
    by_cases hek : e.1 = k
    · simp only [setKey, hek, if_pos rfl, lookupKey]
      by_cases hkq : k = q <;> simp [hkq, hek]
    · simp only [setKey, if_neg hek, lookupKey]
      by_cases heq : e.1 = q
      · have : ¬ k = q := fun h => hek (h ▸ heq)
        simp [heq, this]
      · simp [heq, ih]

theorem mem_keys_setKey (l : List FEntry) (k : MPath) (v : String) (q : MPath) :
    q ∈ keysOf (setKey l k v) ↔ q = k ∨ q ∈ keysOf l := by
  induction l with
  | nil => simp [setKey, keysOf]
  | cons e t ih =>
    obtain ⟨k', v'⟩ := e
    by_cases hek : k' = k
    · subst hek
      simp only [setKey]
      rw [if_pos trivial]
      simp only [keysOf, List.map_cons, List.mem_cons]
      tauto
    · simp only [setKey, if_neg hek, keysOf, List.map_cons, List.mem_cons]
      simp only [keysOf] at ih
      rw [ih]
      tauto

theorem nodup_keys_setKey (l : List FEntry) (k : MPath) (v : String)
    (h : (keysOf l).Nodup) : (keysOf (setKey l k v)).Nodup := by
  induction l with
  | nil => simp [setKey, keysOf]
  | cons e t ih =>
    obtain ⟨k', v'⟩ := e
    simp only [keysOf, List.map_cons, List.nodup_cons] at h
    by_cases hek : k' = k
    · subst hek
      simp only [setKey]
      rw [if_pos trivial]
      simp only [keysOf, List.map_cons, List.nodup_cons]
      exact ⟨h.1, h.2⟩
    · simp only [setKey, if_neg hek, keysOf, List.map_cons, List.nodup_cons]
      refine ⟨fun hc => ?_, ih h.2⟩
      rcases (mem_keys_setKey t k v k').mp hc with h' | h'
      · exact hek h'
      · exact h.1 h'

theorem nodup_keys_writeAll (l acc : List FEntry) (h : (keysOf acc).Nodup) :
    (keysOf (writeAll acc l)).Nodup := by
  induction l generalizing acc with
  | nil => exact h
  | cons e t ih => exact ih _ (nodup_keys_setKey _ _ _ h)

theorem lookupKey_writeAll (l acc : List FEntry) (q : MPath) :
    lookupKey (writeAll acc l) q =
      orO (lookupKey l.reverse q) (lookupKey acc q) := by
  induction l generalizing acc with
  | nil => rfl
  | cons e t ih =>
    have step : writeAll acc (e :: t) = writeAll (setKey acc e.1 e.2) t := rfl
    rw [step, ih, List.reverse_cons, lookupKey_append, lookupKey_setKey]
    rcases hA : lookupKey t.reverse q with _ | cA
    · by_cases h : e.1 = q <;> simp [hA, orO, lookupKey_cons, lookupKey, h]
    · simp [hA, orO]

theorem lookupKey_eq_none_of_not_mem (l : List FEntry) (q : MPath)
    (h : q ∉ keysOf l) : lookupKey l q = none := by
  induction l with
  | nil => rfl
  | cons e t ih =>
    simp only [keysOf, List.map_cons, List.mem_cons, not_or] at h
    rw [lookupKey_cons, if_neg (fun he => h.1 (Eq.symm he))]
    exact ih h.2

theorem lookupKey_reverse_of_nodup (l : List FEntry)
    (h : (keysOf l).Nodup) (q : MPath) :
    lookupKey l.reverse q = lookupKey l q := by
  induction l with
  | nil => rfl
  | cons e t ih =>
    simp only [keysOf, List.map_cons, List.nodup_cons] at h
    rw [List.reverse_cons, lookupKey_append, ih h.2]
    by_cases heq : e.1 = q
    · rw [lookupKey_eq_none_of_not_mem t q (heq ▸ h.1)]
      simp [lookupKey_cons, lookupKey, heq, orO]
    · simp [lookupKey_cons, lookupKey, heq, orO_none_right]

theorem lookupKey_of_mem_nodup (l : List FEntry) (q : MPath) (c : String)
    (hn : (keysOf l).Nodup) (hm : (q, c) ∈ l) : lookupKey l q = some c := by
  induction l with
  | nil => cases hm
  | cons e t ih =>
    simp only [keysOf, List.map_cons, List.nodup_cons] at hn
    rcases List.mem_cons.mp hm with h | h
    · rw [← h]
      simp [lookupKey]
    · have hq : q ∈ keysOf t := List.mem_map.mpr ⟨(q, c), h, rfl⟩
      have hne : e.1 ≠ q := fun he => hn.1 (he ▸ hq)
      simp only [lookupKey, if_neg hne]
      exact ih hn.2 h

/-! ## Derived facts about one injection -/

/-- Content of the platform-archive copies alone: the last platform archive
in copy order whose destination path is q. -/
def platVal (plats : List (String × String)) (q : MPath) : Option String :=
  lookupKey (plats.map (fun e => (["platforms", e.1], e.2))).reverse q

theorem injectOne_files (plats : List (String × String)) (a : Archive) :
    (injectOne plats a).files = copyPlats (extractF a.files) plats := rfl

theorem lookupKey_injectOne (plats : List (String × String)) (a : Archive)
    (q : MPath) :
    lookupKey (injectOne plats a).files q =
      orO (platVal plats q) (lookupKey a.files.reverse q) := by
  rw [injectOne_files]
  unfold copyPlats extractF platVal
  rw [lookupKey_writeAll, lookupKey_writeAll]
  simp [lookupKey, orO_none_right]

theorem nodup_keys_injectOne (plats : List (String × String)) (a : Archive) :
    (keysOf (injectOne plats a).files).Nodup := by
  rw [injectOne_files]
  unfold copyPlats extractF
  exact nodup_keys_writeAll _ _ (nodup_keys_writeAll _ _ (by simp [keysOf]))

theorem keysOf_reverse (l : List FEntry) :
    keysOf l.reverse = (keysOf l).reverse := by
  simp [keysOf]

theorem mem_insertDirF_self (ds : List MPath) (d : MPath) :
    d ∈ insertDirF ds d := by
  by_cases h : d ∈ ds <;> simp [insertDirF, h]

theorem keysOf_platEntries (plats : List (String × String)) :
    keysOf (plats.map (fun e => (["platforms", e.1], e.2)))
      = plats.map (fun e => ["platforms", e.1]) := by
  simp [keysOf, List.map_map]

theorem nodup_platKeys (plats : List (String × String))
    (hP : (plats.map Prod.fst).Nodup) :
    (plats.map (fun e => (["platforms", e.1] : MPath))).Nodup := by
  have h1 : plats.map (fun e => (["platforms", e.1] : MPath))
      = (plats.map Prod.fst).map (fun n => (["platforms", n] : MPath)) := by
    simp [List.map_map]
  rw [h1]
  exact hP.map (fun x y hxy => by simpa using hxy)

theorem platVal_eq_none (plats : List (String × String)) (q : MPath)
    (h : ∀ n ∈ plats.map Prod.fst, q ≠ ["platforms", n]) :
    platVal plats q = none := by
  apply lookupKey_eq_none_of_not_mem
  rw [keysOf_reverse, keysOf_platEntries]
  intro hq
  rw [List.mem_reverse, List.mem_map] at hq
  obtain ⟨e, he, hqe⟩ := hq
  exact h e.1 (List.mem_map.mpr ⟨e, he, rfl⟩) hqe.symm

theorem platVal_eq_some (plats : List (String × String)) (n : String) (c : String)
    (hP : (plats.map Prod.fst).Nodup) (hm : (n, c) ∈ plats) :
    platVal plats ["platforms", n] = some c := by
  unfold platVal
  have hk : (keysOf (plats.map (fun e => (["platforms", e.1], e.2)))).Nodup := by
    rw [keysOf_platEntries]
    exact nodup_platKeys plats hP
  rw [lookupKey_reverse_of_nodup _ hk]
  exact lookupKey_of_mem_nodup _ _ _ hk
    (List.mem_map.mpr ⟨(n, c), hm, rfl⟩)

/-! # Claim C8 -/

/-- C8: injection is idempotent at the level of archive members.  Running
the injection of the same platform archives twice over a release archive
yields, for every member path (in particular every path under platforms/),
exactly the content obtained by running it once, and the resulting archive
has no duplicate member paths. -/
theorem C8_injection_idempotent (plats : List (String × String)) (a : Archive) :
    (∀ q : MPath,
       lookupKey (injectOne plats (injectOne plats a)).files q =
         lookupKey (injectOne plats a).files q)
    ∧ (keysOf (injectOne plats (injectOne plats a)).files).Nodup
    ∧ (keysOf (injectOne plats a).files).Nodup := by
  refine ⟨fun q => ?_, nodup_keys_injectOne _ _, nodup_keys_injectOne _ _⟩
  rw [lookupKey_injectOne, lookupKey_injectOne,
      lookupKey_reverse_of_nodup _ (nodup_keys_injectOne plats a),
      lookupKey_injectOne, orO_absorb]

/-! # Claim C1 -/

def c1Plats : List (String × String) :=
  [("linux-amd64.tar.gz", "new platform bytes")]

def c1StaleArchive : Archive :=
  { isZip := false
    files := [(["platforms", "linux-amd64.tar.gz"], "stale platform bytes"),
              (["portunix"], "binary")]
    dirs := [["platforms"]] }

def c1CleanArchive : Archive :=
  { isZip := false
    files := [(["portunix"], "binary"), (["install", "install.sh"], "script")]
    dirs := [] }

/-- C1 counterexample: the claim quantifies over every release archive, but
a release archive that already holds a member at platforms/ with the name
of one of the platform archives (for instance left by an earlier run with
different binaries) has that member overwritten by shutil.copy2, so the
pre-existing file is no longer byte-identical after injection. -/
theorem C1_counterexample :
    (["platforms", "linux-amd64.tar.gz"], "stale platform bytes")
        ∈ c1StaleArchive.files
    ∧ lookupKey (injectOne c1Plats c1StaleArchive).files
        ["platforms", "linux-amd64.tar.gz"] = some "new platform bytes"
    ∧ lookupKey (injectOne c1Plats c1StaleArchive).files
        ["platforms", "linux-amd64.tar.gz"] ≠ some "stale platform bytes" := by
  refine ⟨by decide, by decide, by decide⟩

/-- C1 amended: after injection, every file of the release archive whose
path does not collide with platforms/ followed by the name of an injected
platform archive is still present with byte-identical content, and every
platform archive appears under platforms/ with content identical to its
source file (colliding pre-existing members are overwritten instead of
preserved). -/
theorem C1_roundtrip_amended (a : Archive) (plats : List (String × String))
    (hA : (keysOf a.files).Nodup) (hP : (plats.map Prod.fst).Nodup) :
    (∀ p c, (p, c) ∈ a.files →
       (∀ n ∈ plats.map Prod.fst, p ≠ ["platforms", n]) →
       lookupKey (injectOne plats a).files p = some c)
    ∧ (∀ n c, (n, c) ∈ plats →
       lookupKey (injectOne plats a).files ["platforms", n] = some c) := by
  constructor
  · intro p c hm hnc
    rw [lookupKey_injectOne, platVal_eq_none plats p hnc,
        lookupKey_reverse_of_nodup _ hA]
    have : lookupKey a.files p = some c := lookupKey_of_mem_nodup _ _ _ hA hm
    rw [this]
    rfl
  · intro n c hm
    rw [lookupKey_injectOne, platVal_eq_some plats n c hP hm]
    rfl

/-- C1 amended witness at a concrete archive and platform set. -/
theorem C1_roundtrip_amended_witness :
    lookupKey (injectOne c1Plats c1CleanArchive).files ["portunix"]
        = some "binary"
    ∧ lookupKey (injectOne c1Plats c1CleanArchive).files
        ["platforms", "linux-amd64.tar.gz"] = some "new platform bytes" :=
  ⟨(C1_roundtrip_amended c1CleanArchive c1Plats (by decide) (by decide)).1
      ["portunix"] "binary" (by decide) (by decide),
   (C1_roundtrip_amended c1CleanArchive c1Plats (by decide) (by decide)).2
      "linux-amd64.tar.gz" "new platform bytes" (by decide)⟩

/-! # Claim C2 -/

def c2Plats : List (String × String) :=
  [("linux-amd64.tar.gz", "platform bytes")]

def c2Bad : RelArchive :=
  { name := "portunix_1.0.0_windows_amd64.zip"
    arch := { isZip := true, files := [(["portunix.exe"], "exe")], dirs := [] }
    extractOk := false
    rewriteOk := true }

def c2Good : RelArchive :=
  { name := "portunix_1.0.0_linux_amd64.tar.gz"
    arch := { isZip := false, files := [(["portunix"], "bin")], dirs := [] }
    extractOk := true
    rewriteOk := true }

/-- An archive whose extraction succeeds but whose rewrite raises. -/
def c2RwBad : RelArchive :=
  { name := "portunix_1.0.0_linux_arm64.tar.gz"
    arch := { isZip := false, files := [(["portunix"], "armbin")], dirs := [] }
    extractOk := true
    rewriteOk := false }

/-- C2 counterexample: with two release archives where the first fails to
extract, the loop of inject_platform_archives propagates the exception and
never processes the second archive, even though injection would have
changed it — so processing of the remaining archives does not continue.
And when instead the rewrite of an archive fails, that archive is not even
left intact: the original was unlinked before recreation, so its file no
longer holds any archive.  Both refute the per-item best-effort claim. -/
theorem C2_counterexample :
    injectLoop c2Plats [c2Bad, c2Good] =
      ([(c2Bad.name, some c2Bad.arch), (c2Good.name, some c2Good.arch)],
       some "Failed to extract portunix_1.0.0_windows_amd64.zip")
    ∧ injectOne c2Plats c2Good.arch ≠ c2Good.arch
    ∧ injectLoop c2Plats [c2RwBad] =
        ([(c2RwBad.name, none)],
         some "Failed to rewrite portunix_1.0.0_linux_arm64.tar.gz") := by
  refine ⟨by decide, by decide, by decide⟩

/-- C2 amended: a failure while processing one release archive aborts the
whole injection phase at that archive with a single error, and every later
archive is left untouched; archives before it keep their rewritten state.
The failing archive itself keeps its prior state when extraction fails,
but when the rewrite fails the original has already been unlinked, so that
archive's file is destroyed (deleted or truncated) rather than left
unprocessed. -/
theorem C2_abort_on_failure (plats : List (String × String))
    (pre : List RelArchive) (bad : RelArchive) (post : List RelArchive)
    (hpre : ∀ b ∈ pre, b.extractOk = true ∧ b.rewriteOk = true) :
    (bad.extractOk = false →
      injectLoop plats (pre ++ bad :: post) =
        (pre.map (fun b => (b.name, some (injectOne plats b.arch)))
           ++ (bad.name, some bad.arch) :: post.map presentFile,
         some ("Failed to extract " ++ bad.name)))
    ∧ (bad.extractOk = true → bad.rewriteOk = false →
      injectLoop plats (pre ++ bad :: post) =
        (pre.map (fun b => (b.name, some (injectOne plats b.arch)))
           ++ (bad.name, none) :: post.map presentFile,
         some ("Failed to rewrite " ++ bad.name))) := by
  induction pre with
  | nil =>
    constructor
    · intro hbe
      simp [injectLoop, hbe]
    · intro hbe hbr
      simp [injectLoop, hbe, hbr]
  | cons b t ih =>
    have hb := hpre b (List.mem_cons_self ..)
    have ht : ∀ x ∈ t, x.extractOk = true ∧ x.rewriteOk = true :=
      fun x hx => hpre x (List.mem_cons_of_mem _ hx)
    constructor
    · intro hbe
      simp [injectLoop, hb.1, hb.2, (ih ht).1 hbe]
    · intro hbe hbr
      simp [injectLoop, hb.1, hb.2, (ih ht).2 hbe hbr]

/-- C2 amended witness: a good archive followed by a failing one, in both
failure modes — extraction failure (archive intact) and rewrite failure
(archive destroyed). -/
theorem C2_abort_on_failure_witness :
    injectLoop c2Plats [c2Good, c2Bad] =
      ([(c2Good.name, some (injectOne c2Plats c2Good.arch)),
        (c2Bad.name, some c2Bad.arch)],
       some "Failed to extract portunix_1.0.0_windows_amd64.zip")
    ∧ injectLoop c2Plats [c2Good, c2RwBad] =
      ([(c2Good.name, some (injectOne c2Plats c2Good.arch)),
        (c2RwBad.name, none)],
       some "Failed to rewrite portunix_1.0.0_linux_arm64.tar.gz") :=
  ⟨(C2_abort_on_failure c2Plats [c2Good] c2Bad [] (by decide)).1 (by decide),
   (C2_abort_on_failure c2Plats [c2Good] c2RwBad [] (by decide)).2
      (by decide) (by decide)⟩

/-! # Claim C4 -/

def c4Tar : RelArchive :=
  { name := "portunix_1.0.0_linux_amd64.tar.gz"
    arch := { isZip := false, files := [(["portunix"], "bin")], dirs := [] }
    extractOk := true
    rewriteOk := true }

/-- C4 counterexample: when the platforms directory exists but holds no
archives, the phase is not skipped: the release archive is still deleted
and rewritten and, being a tar archive, now records an empty platforms/
directory member, so it is not byte-for-byte identical to its prior state. -/
theorem C4_counterexample :
    inject_platform_archives true [] [c4Tar] =
      ([("portunix_1.0.0_linux_amd64.tar.gz",
         some { isZip := false, files := [(["portunix"], "bin")],
                dirs := [(["platforms"] : MPath)] })], none)
    ∧ inject_platform_archives true [] [c4Tar] ≠ ([presentFile c4Tar], none) := by
  refine ⟨by decide, by decide⟩

/-- C4 amended: the injection phase is skipped (leaving every release
archive untouched on disk) exactly when the platforms directory does not
exist; when the directory exists — even empty — every release archive is
processed, and a rewritten tar archive always records a platforms/
directory member. -/
theorem C4_skip_policy_amended (plats : List (String × String))
    (archives : List RelArchive) (arch : Archive) (hz : arch.isZip = false) :
    inject_platform_archives false plats archives = (archives.map presentFile, none)
    ∧ inject_platform_archives true plats archives = injectLoop plats archives
    ∧ ["platforms"] ∈ (injectOne plats arch).dirs := by
  refine ⟨rfl, rfl, ?_⟩
  show ["platforms"] ∈ (injectOne plats arch).dirs
  simp only [injectOne, hz, Bool.false_eq_true, if_false]
  rw [List.mem_dedup]
  exact List.mem_append_left _ (mem_insertDirF_self _ _)

/-- C4 amended witness at a concrete tar archive. -/
theorem C4_skip_policy_amended_witness :
    inject_platform_archives false [] [c4Tar] = ([presentFile c4Tar], none)
    ∧ ["platforms"] ∈ (injectOne [] c4Tar.arch).dirs :=
  ⟨(C4_skip_policy_amended [] [c4Tar] c4Tar.arch rfl).1,
   (C4_skip_policy_amended [] [c4Tar] c4Tar.arch rfl).2.2⟩

/-! # Claim C3: the goreleaser stage of make-release.py

The build stage touches exactly one piece of durable external state, the
git tag named after the version.  The model tracks whether that tag exists
together with a trace of the git/build commands issued, in order. -/

/-- One externally visible command of the build stage. -/
inductive GitCmd
  | tagDelete
  | tagCreate
  | build (ok : Bool)
deriving DecidableEq

/-- External state of the build stage: whether the version tag currently
exists, plus the trace of commands issued so far. -/
structure GitState where
  tagExists : Bool
  trace : List GitCmd
deriving DecidableEq

/-- Run git tag -d: deletes the tag if present; with check=False a missing
tag is not an error, so the state function is total either way. -/
def gitTagDelete (s : GitState) : GitState :=
  { tagExists := false, trace := s.trace ++ [GitCmd.tagDelete] }

/-- Run git tag: creates the tag; fails (CalledProcessError under
check=True) when the tag already exists. -/
def gitTagCreate (s : GitState) : Except String GitState :=
  if s.tagExists then Except.error "fatal: tag already exists"
  else Except.ok { tagExists := true, trace := s.trace ++ [GitCmd.tagCreate] }

/-- Invoke goreleaser; ok records whether this build invocation succeeds. -/
def runBuildStep (ok : Bool) (s : GitState) : GitState :=
  { s with trace := s.trace ++ [GitCmd.build ok] }

/-- Source lines 199-242 of make-release.py (tag lifecycle): delete any
stale tag (check=False), create the temporary tag, run goreleaser inside
try/except; on success delete the tag and return True, on
CalledProcessError delete the tag (check=False) and return False.  The
cleaning of dist/ has no effect on the tag state and is elided. -/
def run_goreleaser (buildOk : Bool) (s : GitState) :
    Except String (Bool × GitState) :=
  let s1 := gitTagDelete s
  match gitTagCreate s1 with
  | Except.error e => Except.error e
  | Except.ok s2 =>
    let s3 := runBuildStep buildOk s2
    if buildOk then Except.ok (true, gitTagDelete s3)
    else Except.ok (false, gitTagDelete s3)

/-- C3: for every prior tag state and every outcome of the build step, the
stage creates the temporary tag before invoking the build and deletes it
again before returning: the returned value reports the build outcome and
the final state has no tag, under success and failure alike, so the
temporary tag never outlives the stage. -/
theorem C3_tag_cleanup (buildOk : Bool) (s : GitState) :
    run_goreleaser buildOk s =
      Except.ok (buildOk,
        { tagExists := false
          trace := s.trace ++ [GitCmd.tagDelete, GitCmd.tagCreate,
                               GitCmd.build buildOk, GitCmd.tagDelete] }) := by
  cases buildOk <;>
    simp [run_goreleaser, gitTagDelete, gitTagCreate, runBuildStep]

/-! # Claim C9: validate_version of make-release.py -/

/-- Consume one or more leading decimal digits, returning the rest of the
input, or fail when the input does not start with a digit.  This is the
backtracking-free reading of one maximal run matched by a digit-plus
pattern followed by a non-digit. -/
def eatDigits : List Char → Option (List Char)
  | [] => none
  | c :: cs => if c.isDigit then some (cs.dropWhile Char.isDigit) else none

/-- Tail check after the third digit run: end of input or the literal
-SNAPSHOT suffix. -/
def tailOk (r5 : List Char) : Bool := r5.isEmpty || r5 == "-SNAPSHOT".data

/-- Third digit run followed by the tail check. -/
def thirdRun (r4 : List Char) : Bool :=
  match eatDigits r4 with
  | none => false
  | some r5 => tailOk r5

/-- Expect the second dot, then the third digit run. -/
def secondDot (r3 : List Char) : Bool :=
  match r3 with
  | [] => false
  | c2 :: r4 => if c2 = '.' then thirdRun r4 else false

/-- Second digit run followed by the second dot. -/
def secondRun (r2 : List Char) : Bool :=
  match eatDigits r2 with
  | none => false
  | some r3 => secondDot r3

/-- Expect the first dot, then the second digit run. -/
def firstDot (r1 : List Char) : Bool :=
  match r1 with
  | [] => false
  | c1 :: r2 => if c1 = '.' then secondRun r2 else false

/-- First digit run followed by the first dot. -/
def firstRun (r0 : List Char) : Bool :=
  match eatDigits r0 with
  | none => false
  | some r1 => firstDot r1

/-- Character-level matcher for the anchored version pattern: a v, then
three dot-separated runs of digits, then optionally the literal -SNAPSHOT,
then the end of the input. -/
def versionChars (cs : List Char) : Bool :=
  match cs with
  | [] => false
  | c0 :: r0 => if c0 = 'v' then firstRun r0 else false

/-- Source lines 115-118 of make-release.py: re.match of the anchored
semantic-version pattern, as a decision procedure over the characters of
the input (ASCII digits; see the file header for the scope of the model). -/
def validate_version (s : String) : Bool := versionChars s.data

/-- A nonempty run of decimal digits. -/
def DigitStr (cs : List Char) : Prop := cs ≠ [] ∧ ∀ c ∈ cs, c.isDigit

/-- Transcription of the specification pattern for accepted versions: a v
followed by three nonempty dot-separated digit runs, optionally followed
by the literal -SNAPSHOT, and nothing else. -/
def VersionPattern (s : String) : Prop :=
  ∃ a b c : List Char, DigitStr a ∧ DigitStr b ∧ DigitStr c ∧
    (s.data = 'v' :: (a ++ '.' :: (b ++ '.' :: c)) ∨
     s.data = 'v' :: (a ++ '.' :: (b ++ '.' :: (c ++ "-SNAPSHOT".data))))

theorem head_dropWhile_not_digit :
    ∀ (l : List Char) c cs, l.dropWhile Char.isDigit = c :: cs →
      c.isDigit = false := by
  intro l
  induction l with
  | nil => intro c cs h; cases h
  | cons x t ih =>
    intro c cs h
    by_cases hx : x.isDigit
    · rw [List.dropWhile_cons, if_pos hx] at h
      exact ih c cs h
    · rw [List.dropWhile_cons, if_neg hx] at h
      cases h
      exact Bool.eq_false_iff.mpr hx

theorem dropWhile_digits_append (ds r : List Char)
    (hd : ∀ c ∈ ds, c.isDigit)
    (hr : ∀ c cs, r = c :: cs → c.isDigit = false) :
    (ds ++ r).dropWhile Char.isDigit = r := by
  induction ds with
  | nil =>
    cases r with
    | nil => rfl
    | cons c cs =>
      rw [List.nil_append, List.dropWhile_cons,
          if_neg (by rw [hr c cs rfl]; exact Bool.false_ne_true)]
  | cons x t ih =>
    rw [List.cons_append, List.dropWhile_cons,
        if_pos (hd x (List.mem_cons_self ..))]
    exact ih (fun c hc => hd c (List.mem_cons_of_mem _ hc))

theorem eatDigits_some (l r : List Char) (h : eatDigits l = some r) :
    ∃ d, DigitStr d ∧ l = d ++ r ∧
      ∀ c cs, r = c :: cs → c.isDigit = false := by
  cases l with
  | nil => cases h
  | cons x t =>
    simp only [eatDigits] at h
    by_cases hx : x.isDigit
    · rw [if_pos hx] at h
      cases h
      refine ⟨x :: t.takeWhile Char.isDigit, ⟨by simp, ?_⟩, ?_, ?_⟩
      · intro c hc
        rcases List.mem_cons.mp hc with h' | h'
        · exact h' ▸ hx
        · exact List.mem_takeWhile_imp h'
      · rw [List.cons_append, List.takeWhile_append_dropWhile]
      · exact fun c cs hc => head_dropWhile_not_digit t c cs hc
    · rw [if_neg hx] at h
      cases h

theorem eatDigits_append (d r : List Char) (hd : DigitStr d)
    (hr : ∀ c cs, r = c :: cs → c.isDigit = false) :
    eatDigits (d ++ r) = some r := by
  cases d with
  | nil => exact absurd rfl hd.1
  | cons x t =>
    rw [List.cons_append]
    simp only [eatDigits]
    rw [if_pos (hd.2 x (List.mem_cons_self ..))]
    rw [dropWhile_digits_append t r
          (fun c hc => hd.2 c (List.mem_cons_of_mem _ hc)) hr]

theorem dot_not_digit : ∀ (x : Char) (xs rest : List Char),
    ('.' :: rest : List Char) = x :: xs → x.isDigit = false := by
  intro x xs rest h
  injection h with h1 _
  rw [← h1]
  decide

theorem firstRun_some (r0 r1 : List Char) (h : eatDigits r0 = some r1) :
    firstRun r0 = firstDot r1 := by
  unfold firstRun
  rw [h]

theorem firstRun_none (r0 : List Char) (h : eatDigits r0 = none) :
    firstRun r0 = false := by
  unfold firstRun
  rw [h]

theorem secondRun_some (r2 r3 : List Char) (h : eatDigits r2 = some r3) :
    secondRun r2 = secondDot r3 := by
  unfold secondRun
  rw [h]

theorem secondRun_none (r2 : List Char) (h : eatDigits r2 = none) :
    secondRun r2 = false := by
  unfold secondRun
  rw [h]

theorem thirdRun_some (r4 r5 : List Char) (h : eatDigits r4 = some r5) :
    thirdRun r4 = tailOk r5 := by
  unfold thirdRun
  rw [h]

theorem thirdRun_none (r4 : List Char) (h : eatDigits r4 = none) :
    thirdRun r4 = false := by
  unfold thirdRun
  rw [h]

theorem firstDot_cons (c1 : Char) (r2 : List Char) :
    firstDot (c1 :: r2) = if c1 = '.' then secondRun r2 else false := rfl

theorem secondDot_cons (c2 : Char) (r4 : List Char) :
    secondDot (c2 :: r4) = if c2 = '.' then thirdRun r4 else false := rfl

theorem versionChars_cons (c0 : Char) (r0 : List Char) :
    versionChars (c0 :: r0) = if c0 = 'v' then firstRun r0 else false := rfl

theorem versionChars_sound (cs : List Char) (h : versionChars cs = true) :
    ∃ a b c : List Char, DigitStr a ∧ DigitStr b ∧ DigitStr c ∧
      (cs = 'v' :: (a ++ '.' :: (b ++ '.' :: c)) ∨
       cs = 'v' :: (a ++ '.' :: (b ++ '.' :: (c ++ "-SNAPSHOT".data)))) := by
  cases cs with
  | nil => exact absurd h (by decide)
  | cons c0 r0 =>
    rw [versionChars_cons] at h
    by_cases hc0 : c0 = 'v'
    · subst hc0
      rw [if_pos rfl] at h
      rcases h1 : eatDigits r0 with _ | r1
      · rw [firstRun_none r0 h1] at h
        exact absurd h (by decide)
      · rw [firstRun_some r0 r1 h1] at h
        obtain ⟨a, ha, hr0, _⟩ := eatDigits_some r0 r1 h1
        cases r1 with
        | nil => exact absurd h (by decide)
        | cons c1 r2 =>
          rw [firstDot_cons] at h
          by_cases hc1 : c1 = '.'
          · subst hc1
            rw [if_pos rfl] at h
            rcases h2 : eatDigits r2 with _ | r3
            · rw [secondRun_none r2 h2] at h
              exact absurd h (by decide)
            · rw [secondRun_some r2 r3 h2] at h
              obtain ⟨b, hb, hr2, _⟩ := eatDigits_some r2 r3 h2
              cases r3 with
              | nil => exact absurd h (by decide)
              | cons c2 r4 =>
                rw [secondDot_cons] at h
                by_cases hc2 : c2 = '.'
                · subst hc2
                  rw [if_pos rfl] at h
                  rcases h3 : eatDigits r4 with _ | r5
                  · rw [thirdRun_none r4 h3] at h
                    exact absurd h (by decide)
                  · rw [thirdRun_some r4 r5 h3] at h
                    obtain ⟨c, hc, hr4, _⟩ := eatDigits_some r4 r5 h3
                    unfold tailOk at h
                    simp only [Bool.or_eq_true, List.isEmpty_iff,
                               beq_iff_eq] at h
                    refine ⟨a, b, c, ha, hb, hc, ?_⟩
                    rcases h with h5 | h5
                    · left
                      subst h5
                      rw [hr0, hr2, hr4, List.append_nil]
                    · right
                      subst h5
                      rw [hr0, hr2, hr4]
                · rw [if_neg hc2] at h
                  exact absurd h (by decide)
          · rw [if_neg hc1] at h
            exact absurd h (by decide)
    · rw [if_neg hc0] at h
      exact absurd h (by decide)

theorem versionChars_complete (cs : List Char) (a b c : List Char)
    (ha : DigitStr a) (hb : DigitStr b) (hc : DigitStr c)
    (hcs : cs = 'v' :: (a ++ '.' :: (b ++ '.' :: c)) ∨
           cs = 'v' :: (a ++ '.' :: (b ++ '.' :: (c ++ "-SNAPSHOT".data)))) :
    versionChars cs = true := by
  have hdot : ∀ (rest : List Char) (x : Char) (xs : List Char),
      ('.' :: rest : List Char) = x :: xs → x.isDigit = false :=
    fun rest x xs hx => dot_not_digit x xs rest hx
  rcases hcs with h | h <;> subst h
  · have e3 : eatDigits c = some [] := by
      have h3 := eatDigits_append c [] hc (fun x xs hx => List.noConfusion hx)
      rwa [List.append_nil] at h3
    rw [versionChars_cons, if_pos rfl,
        firstRun_some _ _ (eatDigits_append a ('.' :: (b ++ '.' :: c)) ha (hdot _)),
        firstDot_cons, if_pos rfl,
        secondRun_some _ _ (eatDigits_append b ('.' :: c) hb (hdot _)),
        secondDot_cons, if_pos rfl, thirdRun_some _ _ e3]
    decide
  · have hsnap : ∀ (x : Char) (xs : List Char),
        "-SNAPSHOT".data = x :: xs → x.isDigit = false := by
      intro x xs hx
      have hd : "-SNAPSHOT".data = '-' :: "SNAPSHOT".data := rfl
      rw [hd] at hx
      injection hx with h1 _
      rw [← h1]
      decide
    have e3 : eatDigits (c ++ "-SNAPSHOT".data) = some "-SNAPSHOT".data :=
      eatDigits_append c "-SNAPSHOT".data hc hsnap
    rw [versionChars_cons, if_pos rfl,
        firstRun_some _ _ (eatDigits_append a
          ('.' :: (b ++ '.' :: (c ++ "-SNAPSHOT".data))) ha (hdot _)),
        firstDot_cons, if_pos rfl,
        secondRun_some _ _ (eatDigits_append b
          ('.' :: (c ++ "-SNAPSHOT".data)) hb (hdot _)),
        secondDot_cons, if_pos rfl, thirdRun_some _ _ e3]
    decide

/-- C9: validate_version accepts exactly the strings matched by the
anchored semantic-version pattern of the specification — a v followed by
three dot-separated runs of digits with an optional -SNAPSHOT suffix —
and classifies the specification's examples accordingly. -/
theorem C9_validate_version_pattern :
    (∀ s : String, validate_version s = true ↔ VersionPattern s)
    ∧ validate_version "v1.2.3" = true
    ∧ validate_version "v1.2.3-SNAPSHOT" = true
    ∧ validate_version "1.2.3" = false
    ∧ validate_version "v1.2" = false
    ∧ validate_version "version1" = false := by
  refine ⟨fun s => ⟨fun h => versionChars_sound s.data h, fun h => ?_⟩,
    by decide, by decide, by decide, by decide, by decide⟩
  obtain ⟨a, b, c, ha, hb, hc, hd⟩ := h
  exact versionChars_complete s.data a b c ha hb hc hd

/-! # Claim C6: create-platform-archives.py -/

/-- The fixed platform list (lines 55-60 of create-platform-archives.py). -/
def PLATFORMS : List String :=
  ["linux-amd64", "linux-arm64", "windows-amd64", "darwin-amd64"]

/-- Archive name and format for a platform (lines 85-90): zip for the
Windows family, tar.gz otherwise. -/
def get_archive_info (p : String) : String × String :=
  if pyStartsWith p "windows" then (p ++ ".zip", "zip") else (p ++ ".tar.gz", "tar.gz")

/-- Environment of one run of the builder: the contents of each platform
subdirectory (none when the directory is missing, some names otherwise)
and whether writing that platform's archive succeeds (tarfile/zipfile and
stat can raise; the flag records that fact for this run). -/
structure PlatFS where
  dirOf : String → Option (List String)
  writeOk : String → Bool

/-- Observable outcome of one run of the builder loop. -/
structure CPAResult where
  count : Nat
  warnings : List String
  errors : List String
deriving DecidableEq

/-- One iteration of the loop of create_platform_archives (lines 108-139):
missing directory and empty directory are warned and skipped; a write
error is caught, reported and not counted; a successful write increments
the count. -/
def cpaStep (fs : PlatFS) (acc : CPAResult) (p : String) : CPAResult :=
  match fs.dirOf p with
  | none =>
    { acc with warnings := acc.warnings ++ ["Platform directory not found: " ++ p] }
  | some [] =>
    { acc with warnings := acc.warnings ++ ["No files in platform directory: " ++ p] }
  | some (_ :: _) =>
    if fs.writeOk p then { acc with count := acc.count + 1 }
    else { acc with errors := acc.errors ++ ["Failed to create " ++ (get_archive_info p).1] }

/-- Source lines 93-140 of create-platform-archives.py: iterate the fixed
platform list and return the number of archives actually created along
with the warnings and errors reported. -/
def create_platform_archives (fs : PlatFS) : CPAResult :=
  PLATFORMS.foldl (cpaStep fs) { count := 0, warnings := [], errors := [] }

/-- A platform counts as created when its directory exists, is nonempty
and the archive write succeeds. -/
def platformCreated (fs : PlatFS) (p : String) : Bool :=
  match fs.dirOf p with
  | some (_ :: _) => fs.writeOk p
  | _ => false

/-- Warnings contributed by one platform. -/
def warnFor (fs : PlatFS) (p : String) : List String :=
  match fs.dirOf p with
  | none => ["Platform directory not found: " ++ p]
  | some [] => ["No files in platform directory: " ++ p]
  | some (_ :: _) => []

/-- Errors contributed by one platform. -/
def errFor (fs : PlatFS) (p : String) : List String :=
  match fs.dirOf p with
  | some (_ :: _) =>
    if fs.writeOk p then [] else ["Failed to create " ++ (get_archive_info p).1]
  | _ => []

/-- Source lines 160-194 of create-platform-archives.py: main exits 1 when
the platforms directory is not a directory, else 1 exactly when zero
archives were created, else 0. -/
def cpa_main (platformsDirIsDir : Bool) (fs : PlatFS) : Nat :=
  if ¬ platformsDirIsDir then 1
  else if (create_platform_archives fs).count = 0 then 1 else 0

theorem cpa_fold_count (fs : PlatFS) (ps : List String) (acc : CPAResult) :
    (ps.foldl (cpaStep fs) acc).count
      = acc.count + (ps.filter (fun p => platformCreated fs p)).length := by
  induction ps generalizing acc with
  | nil => simp
  | cons p t ih =>
    rw [List.foldl_cons, ih]
    rcases hd : fs.dirOf p with _ | l
    · simp [cpaStep, hd, platformCreated, List.filter_cons]
    · cases l with
      | nil => simp [cpaStep, hd, platformCreated, List.filter_cons]
      | cons x xs =>
        by_cases hw : fs.writeOk p
        · simp only [cpaStep, hd, hw, if_pos, platformCreated, List.filter_cons]
          simp [hw]
          omega
        · simp [cpaStep, hd, hw, platformCreated, List.filter_cons]

theorem cpa_fold_warnings (fs : PlatFS) (ps : List String) (acc : CPAResult) :
    (ps.foldl (cpaStep fs) acc).warnings
      = acc.warnings ++ ps.flatMap (warnFor fs) := by
  induction ps generalizing acc with
  | nil => simp
  | cons p t ih =>
    rw [List.foldl_cons, ih]
    rcases hd : fs.dirOf p with _ | l
    · simp [cpaStep, hd, warnFor, List.append_assoc]
    · cases l with
      | nil => simp [cpaStep, hd, warnFor, List.append_assoc]
      | cons x xs =>
        by_cases hw : fs.writeOk p <;>
          simp [cpaStep, hd, hw, warnFor, List.append_assoc]

theorem cpa_fold_errors (fs : PlatFS) (ps : List String) (acc : CPAResult) :
    (ps.foldl (cpaStep fs) acc).errors
      = acc.errors ++ ps.flatMap (errFor fs) := by
  induction ps generalizing acc with
  | nil => simp
  | cons p t ih =>
    rw [List.foldl_cons, ih]
    rcases hd : fs.dirOf p with _ | l
    · simp [cpaStep, hd, errFor, List.append_assoc]
    · cases l with
      | nil => simp [cpaStep, hd, errFor, List.append_assoc]
      | cons x xs =>
        by_cases hw : fs.writeOk p <;>
          simp [cpaStep, hd, hw, errFor, List.append_assoc]

/-- C6: over the fixed platform list, a missing or empty platform
subdirectory is skipped with a warning and does not count as created, a
per-platform write error is caught and reported without counting, the
returned value equals the number of platforms actually archived, and main
reports failure exactly when that count is zero. -/
theorem C6_platform_archive_builder (fs : PlatFS) :
    (create_platform_archives fs).count
        = (PLATFORMS.filter (fun p => platformCreated fs p)).length
    ∧ (∀ p ∈ PLATFORMS, fs.dirOf p = none →
        ("Platform directory not found: " ++ p)
            ∈ (create_platform_archives fs).warnings
          ∧ platformCreated fs p = false)
    ∧ (∀ p ∈ PLATFORMS, fs.dirOf p = some [] →
        ("No files in platform directory: " ++ p)
            ∈ (create_platform_archives fs).warnings
          ∧ platformCreated fs p = false)
    ∧ (∀ p ∈ PLATFORMS, ∀ x xs, fs.dirOf p = some (x :: xs) →
        fs.writeOk p = false →
        ("Failed to create " ++ (get_archive_info p).1)
            ∈ (create_platform_archives fs).errors
          ∧ platformCreated fs p = false)
    ∧ (cpa_main true fs = 1 ↔ (create_platform_archives fs).count = 0) := by
  have hw : (create_platform_archives fs).warnings
      = PLATFORMS.flatMap (warnFor fs) := by
    unfold create_platform_archives
    rw [cpa_fold_warnings]
    rfl
  have he : (create_platform_archives fs).errors
      = PLATFORMS.flatMap (errFor fs) := by
    unfold create_platform_archives
    rw [cpa_fold_errors]
    rfl
  refine ⟨?_, ?_, ?_, ?_, ?_⟩
  · unfold create_platform_archives
    rw [cpa_fold_count]
    simp
  · intro p hp hd
    refine ⟨?_, by simp [platformCreated, hd]⟩
    rw [hw]
    exact List.mem_flatMap.mpr ⟨p, hp, by simp [warnFor, hd]⟩
  · intro p hp hd
    refine ⟨?_, by simp [platformCreated, hd]⟩
    rw [hw]
    exact List.mem_flatMap.mpr ⟨p, hp, by simp [warnFor, hd]⟩
  · intro p hp x xs hd hwr
    refine ⟨?_, by simp [platformCreated, hd, hwr]⟩
    rw [he]
    exact List.mem_flatMap.mpr ⟨p, hp, by simp [errFor, hd, hwr]⟩
  · unfold cpa_main
    by_cases hc : (create_platform_archives fs).count = 0 <;> simp [hc]

/-- A run with only linux-amd64 populated, linux-arm64 empty and the other
two platform directories missing. -/
def c6FS : PlatFS :=
  { dirOf := fun p =>
      if p = "linux-amd64" then some ["portunix"]
      else if p = "linux-arm64" then some [] else none
    writeOk := fun _ => true }

/-- C6 witness: the concrete run creates exactly one archive, warns for
the empty and the missing platforms, and main reports success. -/
theorem C6_platform_archive_builder_witness :
    (create_platform_archives c6FS).count = 1
    ∧ ("Platform directory not found: windows-amd64")
        ∈ (create_platform_archives c6FS).warnings
    ∧ ("No files in platform directory: linux-arm64")
        ∈ (create_platform_archives c6FS).warnings
    ∧ cpa_main true c6FS = 0 :=
  ⟨by rw [(C6_platform_archive_builder c6FS).1]; decide,
   ((C6_platform_archive_builder c6FS).2.1 "windows-amd64"
      (by decide) (by decide)).1,
   ((C6_platform_archive_builder c6FS).2.2.1 "linux-arm64"
      (by decide) (by decide)).1,
   by decide⟩

/-! # collect_release_notes.py: data model -/

/-- One change entry of a release-note record: description plus optional
issue reference (the script reads both with dict.get and an empty-string
default). -/
structure ChangeItem where
  description : String := ""
  issue : String := ""
deriving DecidableEq

/-- A parsed release-note JSON record.  The three header fields are
optional because validate_json checks their presence; the remaining fields
default to the same values dict.get supplies in the script. -/
structure ReleaseNoteRecord where
  version : Option String := none
  date : Option String := none
  tag : Option String := none
  summary : String := ""
  highlights : List String := []
  changes : List (String × List ChangeItem) := []
  components : List String := []
  notes : String := ""
deriving DecidableEq

/-- Generic first-match association lookup (Python dict.get). -/
def lookupAssoc {α : Type} : List (String × α) → String → Option α
  | [], _ => none
  | (k, v) :: t, q => if k = q then some v else lookupAssoc t q

/-- Fixed category rendering order (line 158 of the script). -/
def category_order : List String :=
  ["breaking", "security", "features", "improvements", "fixes", "docs"]

/-- Category titles (lines 148-155). -/
def category_titles : List (String × String) :=
  [("breaking", "Breaking Changes"), ("security", "Security"),
   ("features", "New Features"), ("improvements", "Improvements"),
   ("fixes", "Bug Fixes"), ("docs", "Documentation")]

/-- Title for a category; the dict covers every member of category_order,
so the Python str.title fallback is never reached and is modelled by the
category name itself. -/
def titleFor (c : String) : String := (lookupAssoc category_titles c).getD c

/-- Source lines 119-191 of collect_release_notes.py: deterministic
Markdown rendering of one record — header, summary, highlights, the six
change categories in fixed order skipping empty ones, components, notes. -/
def generate_markdown_for_version (data : ReleaseNoteRecord) : String :=
  let version := data.version.getD "Unknown"
  let date := data.date.getD "Unknown"
  let l0 : List String := ["## " ++ version, "", "**Release Date:** " ++ date, ""]
  let l1 := if data.summary ≠ "" then [data.summary, ""] else []
  let l2 :=
    if data.highlights ≠ [] then
      ["### Highlights", ""] ++ data.highlights.map (fun h => "- " ++ h) ++ [""]
    else []
  let l3 := category_order.flatMap (fun cat =>
    let items := (lookupAssoc data.changes cat).getD []
    if items ≠ [] then
      ["### " ++ titleFor cat, ""]
        ++ items.map (fun it =>
             if it.issue ≠ "" then "- " ++ it.description ++ " (" ++ it.issue ++ ")"
             else "- " ++ it.description)
        ++ [""]
    else [])
  let l4 :=
    if data.components ≠ [] then
      ["### Affected Components", "", String.intercalate ", " data.components, ""]
    else []
  let l5 := if data.notes ≠ "" then ["### Notes", "", data.notes, ""] else []
  String.intercalate "\n" (l0 ++ l1 ++ l2 ++ l3 ++ l4 ++ l5)

/-- The release-notes directory: one entry per JSON file, keyed by the
file stem (the version-number part of the name), carrying the parsed
record, or none when the file is not valid JSON (load then fails). -/
abbrev NotesDir := List (String × Option ReleaseNoteRecord)

/-- Source lines 60-72: versions that have a JSON file — every file stem
except those starting with an underscore; no parsing happens here, so a
malformed file still counts. -/
def get_existing_json_versions (dir : NotesDir) : List String :=
  (dir.map Prod.fst).filter (fun s => !pyStartsWith s "_")

/-- Source lines 85-97: load the record for a version; a missing file or a
JSON decode error both yield none. -/
def load_release_notes (dir : NotesDir) (version : String) : Option ReleaseNoteRecord :=
  match lookupAssoc dir version with
  | some (some r) => some r
  | _ => none

/-- Source lines 99-116: required-field presence, version/filename
consistency, tag v-prefix convention.  Returns the list of errors in the
order the script reports them. -/
def validate_json (data : ReleaseNoteRecord) (version : String) : List String :=
  (match data.version with
   | none => ["Missing required field: version"]
   | some _ => [])
  ++ (match data.date with
      | none => ["Missing required field: date"]
      | some _ => [])
  ++ (match data.tag with
      | none => ["Missing required field: tag"]
      | some _ => [])
  ++ (if data.version ≠ some version then
        ["Version mismatch: file is " ++ version ++ ".json but contains version "
          ++ (match data.version with | some v => v | none => "None")]
      else [])
  ++ (match data.tag with
      | some t =>
        if !pyStartsWith t "v" then ["Tag should start with v: " ++ t] else []
      | none => [])

/-- Drop the first character (Python s[1:]). -/
def strDrop1 (t : String) : String := String.mk (t.data.drop 1)

/-- Source line 77: v1.8.0 becomes 1.8.0; a string without the v prefix is
returned unchanged. -/
def tag_to_version (t : String) : String :=
  if pyStartsWith t "v" then strDrop1 t else t

/-- Source lines 48-54 of get_git_tags: keep only tags whose text after
the first character is three dot-separated all-digit parts. -/
def filter_valid_tags (tags : List String) : List String :=
  tags.filter (fun t =>
    (splitDots (strDrop1 t)).length == 3
      && (splitDots (strDrop1 t)).all pyIsDigit)

/-- Source lines 235-260: the CI check mode.  It compares the set of valid
git tags against the set of existing JSON file stems and returns exit code
1 exactly when some tagged version has no JSON file and warn-only is off.
It never reads or validates the contents of any record. -/
def check_missing_notes (tags : List String) (dir : NotesDir)
    (warn_only : Bool) : Nat :=
  if (((filter_valid_tags tags).map tag_to_version).filter
        (fun v => !(get_existing_json_versions dir).contains v)).isEmpty then 0
  else if warn_only then 0 else 1

/-! ## Sorting machinery of generate_full_release_notes -/

/-- Python int applied to each dot-separated component of a version stem
(the sort key of line 212); none when any component fails to parse. -/
def mapOpt {α β : Type} (f : α → Option β) : List α → Option (List β)
  | [] => some []
  | x :: xs =>
    match f x with
    | none => none
    | some y =>
      match mapOpt f xs with
      | none => none
      | some ys => some (y :: ys)

/-- Sort key of a version stem: the list of int components, or none when a
component is not an int literal (Python raises ValueError there). -/
def verKey (v : String) : Option (List Int) := mapOpt pyInt (splitDots v)

/-- Python list comparison on the int key lists (strict less-than,
lexicographic with shorter-list-is-smaller). -/
def lexLtB : List Int → List Int → Bool
  | [], [] => false
  | [], _ :: _ => true
  | _ :: _, [] => false
  | a :: as, b :: bs =>
    if a < b then true else if b < a then false else lexLtB as bs

/-- Greater-or-equal on the keys, negation of strict less-than. -/
def lexGeB (a b : List Int) : Bool := !lexLtB a b

/-- Insert into a descending-sorted keyed list. -/
def insertDesc (x : List Int × String) :
    List (List Int × String) → List (List Int × String)
  | [] => [x]
  | y :: ys => if lexGeB x.1 y.1 then x :: y :: ys else y :: insertDesc x ys

/-- Sort a keyed list descending by key (the reverse=True numeric sort of
line 212, modelled by insertion sort; ties keep their relative order,
matching a stable sort). -/
def sortDescBy : List (List Int × String) → List (List Int × String)
  | [] => []
  | x :: xs => insertDesc x (sortDescBy xs)

/-- Attach sort keys to all versions; none as soon as one key fails, which
models the ValueError Python raises while computing the sort keys. -/
def keyedVersions (vs : List String) : Option (List (List Int × String)) :=
  mapOpt (fun v =>
    match verKey v with
    | some k => some (k, v)
    | none => none) vs

/-- The sorted(existing, key=..., reverse=True) expression of line 212:
every stem keyed by its parsed int components, sorted descending; an
unparsable stem raises, modelled as an error. -/
def sortedDesc (vs : List String) : Except String (List String) :=
  match keyedVersions vs with
  | none => Except.error "ValueError: invalid literal for int"
  | some keyedL => Except.ok ((sortDescBy keyedL).map Prod.snd)

/-! ## Aggregation -/

/-- The heading block the script always emits first (lines 198-203); now
stands for the formatted datetime.now() value. -/
def headerLines (now : String) : List String :=
  ["# Portunix Release Notes", "", "Generated: " ++ now, "", "---", ""]

/-- One iteration of the rendering loop (lines 219-230): a loadable record
is validated (warnings collected when any error exists) and rendered
followed by a separator; an unloadable one is skipped. -/
def renderStep (dir : NotesDir)
    (acc : List String × List (String × List String)) (v : String) :
    List String × List (String × List String) :=
  match load_release_notes dir v with
  | some data =>
    (acc.1 ++ [generate_markdown_for_version data, "---", ""],
     if validate_json data v ≠ [] then acc.2 ++ [(v, validate_json data v)]
     else acc.2)
  | none => acc

/-- Source lines 194-232: build the full document.  With an explicit
version subset, render the subset members that have a JSON file; without
one, render every existing version sorted newest-first by the numeric key
(which can raise).  Returns the emitted lines together with the
per-version validation warnings printed to stderr. -/
def generate_full_release_notes (dir : NotesDir) (now : String)
    (versions : Option (List String)) :
    Except String (List String × List (String × List String)) :=
  match versions with
  | some vs =>
    let to_gen := vs.filter (fun v => (get_existing_json_versions dir).contains v)
    if to_gen.isEmpty then
      Except.ok (headerLines now ++ ["No release notes available.", ""], [])
    else
      Except.ok (to_gen.foldl (renderStep dir) (headerLines now, []))
  | none =>
    match sortedDesc (get_existing_json_versions dir) with
    | Except.error e => Except.error e
    | Except.ok to_gen =>
      if to_gen.isEmpty then
        Except.ok (headerLines now ++ ["No release notes available.", ""], [])
      else
        Except.ok (to_gen.foldl (renderStep dir) (headerLines now, []))

/-- Rendered block contributed by one version. -/
def blockFor (dir : NotesDir) (v : String) : List String :=
  match load_release_notes dir v with
  | some data => [generate_markdown_for_version data, "---", ""]
  | none => []

/-- Validation warnings contributed by one version. -/
def warnsFor (dir : NotesDir) (v : String) : List (String × List String) :=
  match load_release_notes dir v with
  | some data =>
    if validate_json data v ≠ [] then [(v, validate_json data v)] else []
  | none => []

theorem renderFold (dir : NotesDir) (l : List String)
    (acc : List String × List (String × List String)) :
    l.foldl (renderStep dir) acc
      = (acc.1 ++ l.flatMap (blockFor dir), acc.2 ++ l.flatMap (warnsFor dir)) := by
  induction l generalizing acc with
  | nil => simp
  | cons v t ih =>
    rw [List.foldl_cons, ih]
    rcases hl : load_release_notes dir v with _ | data
    · simp [renderStep, hl, blockFor, warnsFor]
    · by_cases hv : validate_json data v = [] <;>
        simp [renderStep, hl, blockFor, warnsFor, hv, List.append_assoc]

theorem mapOpt_eq_none {α β : Type} (f : α → Option β) (l : List α) (x : α)
    (hx : x ∈ l) (hf : f x = none) : mapOpt f l = none := by
  induction l with
  | nil => cases hx
  | cons y t ih =>
    rcases List.mem_cons.mp hx with h | h
    · subst h
      simp [mapOpt, hf]
    · rcases hfy : f y with _ | z
      · simp [mapOpt, hfy]
      · simp [mapOpt, hfy, ih h]

theorem mapOpt_isSome {α β : Type} (f : α → Option β) (l : List α)
    (h : ∀ x ∈ l, (f x).isSome) : ∃ ys, mapOpt f l = some ys := by
  induction l with
  | nil => exact ⟨[], rfl⟩
  | cons y t ih =>
    obtain ⟨z, hz⟩ := Option.isSome_iff_exists.mp (h y (List.mem_cons_self ..))
    obtain ⟨ys, hys⟩ := ih (fun x hx => h x (List.mem_cons_of_mem _ hx))
    exact ⟨z :: ys, by simp [mapOpt, hz, hys]⟩

theorem lexLtB_nil_cons (b : Int) (bs : List Int) :
    lexLtB [] (b :: bs) = true := rfl

theorem lexLtB_asymm : ∀ a b : List Int,
    lexLtB a b = true → lexLtB b a = false := by
  intro a
  induction a with
  | nil =>
    intro b h
    cases b with
    | nil => exact absurd h (by simp [lexLtB])
    | cons y bs => simp [lexLtB]
  | cons x as ih =>
    intro b h
    cases b with
    | nil => exact absurd h (by simp [lexLtB])
    | cons y bs =>
      simp only [lexLtB] at h ⊢
      by_cases hxy : x < y
      · rw [if_neg (by omega), if_pos (by omega)]
      · by_cases hyx : y < x
        · rw [if_neg hxy, if_pos hyx] at h
          exact Bool.noConfusion h
        · rw [if_neg hxy, if_neg hyx] at h
          rw [if_neg (by omega), if_neg (by omega)]
          exact ih bs h

theorem lexLtB_trans : ∀ a b c : List Int,
    lexLtB a b = true → lexLtB b c = true → lexLtB a c = true := by
  intro a
  induction a with
  | nil =>
    intro b c h1 h2
    cases b with
    | nil => exact absurd h1 (by simp [lexLtB])
    | cons y bs =>
      cases c with
      | nil => exact absurd h2 (by simp [lexLtB])
      | cons z cs => simp [lexLtB]
  | cons x as ih =>
    intro b c h1 h2
    cases b with
    | nil => exact absurd h1 (by simp [lexLtB])
    | cons y bs =>
      cases c with
      | nil => exact absurd h2 (by simp [lexLtB])
      | cons z cs =>
        simp only [lexLtB] at h1 h2 ⊢
        by_cases hxy : x < y
        · by_cases hyz : y < z
          · rw [if_pos (by omega)]
          · rw [if_neg hyz] at h2
            by_cases hzy : z < y
            · rw [if_pos hzy] at h2
              exact Bool.noConfusion h2
            · rw [if_pos (by omega)]
        · by_cases hyx : y < x
          · rw [if_neg hxy, if_pos hyx] at h1
            exact Bool.noConfusion h1
          · rw [if_neg hxy, if_neg hyx] at h1
            by_cases hyz : y < z
            · rw [if_pos (by omega)]
            · by_cases hzy : z < y
              · rw [if_neg hyz, if_pos hzy] at h2
                exact Bool.noConfusion h2
              · rw [if_neg hyz, if_neg hzy] at h2
                rw [if_neg (by omega), if_neg (by omega)]
                exact ih bs cs h1 h2

theorem lexLtB_trichotomy : ∀ a b : List Int,
    lexLtB a b = true ∨ a = b ∨ lexLtB b a = true := by
  intro a
  induction a with
  | nil =>
    intro b
    cases b with
    | nil => exact Or.inr (Or.inl rfl)
    | cons y bs => exact Or.inl rfl
  | cons x as ih =>
    intro b
    cases b with
    | nil => exact Or.inr (Or.inr rfl)
    | cons y bs =>
      by_cases hxy : x < y
      · left
        simp [lexLtB, hxy]
      · by_cases hyx : y < x
        · right; right
          simp [lexLtB, hyx, hxy]
        · have hxy' : x = y := by omega
          subst hxy'
          rcases ih bs with h | h | h
          · left
            simp only [lexLtB]
            rw [if_neg (by omega), if_neg (by omega)]
            exact h
          · right; left
            rw [h]
          · right; right
            simp only [lexLtB]
            rw [if_neg (by omega), if_neg (by omega)]
            exact h

theorem lexLtB_irrefl (a : List Int) : lexLtB a a = false := by
  cases h : lexLtB a a with
  | false => rfl
  | true =>
    have h2 := lexLtB_asymm a a h
    rw [h] at h2
    exact Bool.noConfusion h2

theorem lexGeB_total (a b : List Int) :
    lexGeB a b = true ∨ lexGeB b a = true := by
  unfold lexGeB
  rcases lexLtB_trichotomy a b with h | h | h
  · right
    rw [lexLtB_asymm a b h]
    rfl
  · left
    subst h
    rw [lexLtB_irrefl]
    rfl
  · left
    rw [lexLtB_asymm b a h]
    rfl

theorem lexGeB_trans (a b c : List Int) (h1 : lexGeB a b = true)
    (h2 : lexGeB b c = true) : lexGeB a c = true := by
  unfold lexGeB at h1 h2 ⊢
  rw [Bool.not_eq_true'] at h1 h2 ⊢
  cases hac : lexLtB a c with
  | false => rfl
  | true =>
    rcases lexLtB_trichotomy a b with h | h | h
    · rw [h] at h1
      exact Bool.noConfusion h1
    · subst h
      rw [hac] at h2
      exact Bool.noConfusion h2
    · have := lexLtB_trans b a c h hac
      rw [this] at h2
      exact Bool.noConfusion h2

theorem insertDesc_perm (x : List Int × String)
    (l : List (List Int × String)) : (insertDesc x l).Perm (x :: l) := by
  induction l with
  | nil => exact List.Perm.refl _
  | cons y ys ih =>
    by_cases hge : lexGeB x.1 y.1
    · simp [insertDesc, hge]
    · simp only [insertDesc, hge, Bool.false_eq_true, if_false]
      exact (ih.cons y).trans (List.Perm.swap x y ys)

theorem sortDescBy_perm (l : List (List Int × String)) :
    (sortDescBy l).Perm l := by
  induction l with
  | nil => exact List.Perm.refl _
  | cons x xs ih =>
    exact (insertDesc_perm x (sortDescBy xs)).trans (ih.cons x)

theorem pairwise_insertDesc (x : List Int × String)
    (l : List (List Int × String))
    (h : l.Pairwise (fun p q => lexGeB p.1 q.1 = true)) :
    (insertDesc x l).Pairwise (fun p q => lexGeB p.1 q.1 = true) := by
  induction l with
  | nil => simp [insertDesc]
  | cons y ys ih =>
    rw [List.pairwise_cons] at h
    by_cases hge : lexGeB x.1 y.1
    · simp only [insertDesc, hge, if_pos]
      rw [List.pairwise_cons]
      refine ⟨?_, List.pairwise_cons.mpr h⟩
      intro z hz
      rcases List.mem_cons.mp hz with h' | h'
      · subst h'
        exact hge
      · exact lexGeB_trans _ _ _ hge (h.1 z h')
    · simp only [insertDesc, hge, Bool.false_eq_true, if_false]
      rw [List.pairwise_cons]
      refine ⟨?_, ih h.2⟩
      intro z hz
      have hz' : z ∈ x :: ys := (insertDesc_perm x ys).subset hz
      rcases List.mem_cons.mp hz' with h' | h'
      · rw [h']
        rcases lexGeB_total x.1 y.1 with ht | ht
        · exact absurd ht hge
        · exact ht
      · exact h.1 z h'

theorem pairwise_sortDescBy (l : List (List Int × String)) :
    (sortDescBy l).Pairwise (fun p q => lexGeB p.1 q.1 = true) := by
  induction l with
  | nil => simp [sortDescBy]
  | cons x xs ih => exact pairwise_insertDesc x (sortDescBy xs) ih

theorem keyedVersions_mem (vs : List String)
    (keyedL : List (List Int × String))
    (h : keyedVersions vs = some keyedL) :
    ∀ p ∈ keyedL, verKey p.2 = some p.1 ∧ p.2 ∈ vs := by
  induction vs generalizing keyedL with
  | nil =>
    unfold keyedVersions mapOpt at h
    cases h
    intro p hp
    cases hp
  | cons v t ih =>
    unfold keyedVersions mapOpt at h
    rcases hv : verKey v with _ | k <;> rw [hv] at h
    · exact absurd h (by simp)
    · rcases ht : mapOpt (fun v => match verKey v with
          | some k => some (k, v)
          | none => none) t with _ | ys <;> rw [ht] at h
      · exact absurd h (by simp)
      · cases h
        intro p hp
        rcases List.mem_cons.mp hp with h' | h'
        · subst h'
          exact ⟨hv, List.mem_cons_self ..⟩
        · have := ih ys ht p h'
          exact ⟨this.1, List.mem_cons_of_mem _ this.2⟩

theorem keyedVersions_map_snd (vs : List String)
    (keyedL : List (List Int × String))
    (h : keyedVersions vs = some keyedL) :
    keyedL.map Prod.snd = vs := by
  induction vs generalizing keyedL with
  | nil =>
    unfold keyedVersions mapOpt at h
    cases h
    rfl
  | cons v t ih =>
    unfold keyedVersions mapOpt at h
    rcases hv : verKey v with _ | k <;> rw [hv] at h
    · exact absurd h (by simp)
    · rcases ht : mapOpt (fun v => match verKey v with
          | some k => some (k, v)
          | none => none) t with _ | ys <;> rw [ht] at h
      · exact absurd h (by simp)
      · cases h
        simp only [List.map_cons]
        rw [ih ys ht]

theorem keyedVersions_isSome (vs : List String)
    (h : ∀ v ∈ vs, (verKey v).isSome) :
    ∃ keyedL, keyedVersions vs = some keyedL := by
  unfold keyedVersions
  apply mapOpt_isSome
  intro v hv
  obtain ⟨k, hk⟩ := Option.isSome_iff_exists.mp (h v hv)
  simp [hk]

theorem sortedDesc_of_keyed (vs : List String)
    (keyedL : List (List Int × String))
    (h : keyedVersions vs = some keyedL) :
    sortedDesc vs = Except.ok ((sortDescBy keyedL).map Prod.snd) := by
  unfold sortedDesc
  rw [h]

theorem sortedDesc_error (vs : List String)
    (h : keyedVersions vs = none) :
    sortedDesc vs = Except.error "ValueError: invalid literal for int" := by
  unfold sortedDesc
  rw [h]

theorem generate_none_eval (dir : NotesDir) (now : String) (l : List String)
    (hs : sortedDesc (get_existing_json_versions dir) = Except.ok l) :
    generate_full_release_notes dir now none =
      Except.ok (if l.isEmpty
                 then (headerLines now ++ ["No release notes available.", ""], [])
                 else (headerLines now ++ l.flatMap (blockFor dir),
                       l.flatMap (warnsFor dir))) := by
  unfold generate_full_release_notes
  rw [hs]
  cases l with
  | nil => rfl
  | cons v t =>
    show Except.ok ((v :: t).foldl (renderStep dir) (headerLines now, [])) = _
    rw [renderFold]
    simp

theorem generate_none_error (dir : NotesDir) (now : String)
    (hs : sortedDesc (get_existing_json_versions dir)
            = Except.error "ValueError: invalid literal for int") :
    generate_full_release_notes dir now none =
      Except.error "ValueError: invalid literal for int" := by
  unfold generate_full_release_notes
  rw [hs]

/-! # Claim C7 -/

/-- C7: aggregation without an explicit subset renders every version that
has a record, newest first.  Whenever every existing stem parses as
dot-separated int components, the sort succeeds and yields a permutation
of the existing versions that is pairwise descending under the numeric
key order, and the generated document consists of the header followed by
each version's rendered block in exactly that order (with the collected
validation warnings alongside). -/
theorem C7_aggregate_order (dir : NotesDir) (now : String)
    (h : ∀ v ∈ get_existing_json_versions dir, (verKey v).isSome) :
    ∃ l : List String,
      sortedDesc (get_existing_json_versions dir) = Except.ok l
      ∧ l.Perm (get_existing_json_versions dir)
      ∧ l.Pairwise (fun a b =>
          lexGeB ((verKey a).getD []) ((verKey b).getD []) = true)
      ∧ generate_full_release_notes dir now none =
          Except.ok (if l.isEmpty
                     then (headerLines now ++ ["No release notes available.", ""], [])
                     else (headerLines now ++ l.flatMap (blockFor dir),
                           l.flatMap (warnsFor dir))) := by
  obtain ⟨keyedL, hk⟩ := keyedVersions_isSome _ h
  have hs := sortedDesc_of_keyed _ _ hk
  refine ⟨(sortDescBy keyedL).map Prod.snd, hs, ?_, ?_,
    generate_none_eval dir now _ hs⟩
  · have h1 : ((sortDescBy keyedL).map Prod.snd).Perm (keyedL.map Prod.snd) :=
      (sortDescBy_perm keyedL).map Prod.snd
    rw [keyedVersions_map_snd _ _ hk] at h1
    exact h1
  · rw [List.pairwise_map]
    refine List.Pairwise.imp_of_mem ?_ (pairwise_sortDescBy keyedL)
    intro p q hp hq hR
    have hpm := (keyedVersions_mem _ _ hk p ((sortDescBy_perm keyedL).subset hp)).1
    have hqm := (keyedVersions_mem _ _ hk q ((sortDescBy_perm keyedL).subset hq)).1
    rw [hpm, hqm]
    simpa using hR

/-- A minimal well-formed record used by concrete aggregation runs. -/
def mkNoteRecord (v tg : String) : ReleaseNoteRecord :=
  { version := some v, date := some "2025-01-01", tag := some tg }

/-- Directory with records for 1.9.0 and 1.10.0. -/
def c7Dir : NotesDir :=
  [("1.9.0", some (mkNoteRecord "1.9.0" "v1.9.0")),
   ("1.10.0", some (mkNoteRecord "1.10.0" "v1.10.0"))]

/-- C7 witness: with records for 1.10.0 and 1.9.0 the order is numeric,
not lexical — 1.10.0 is rendered before 1.9.0. -/
theorem C7_aggregate_order_witness :
    (∀ v ∈ get_existing_json_versions c7Dir, (verKey v).isSome)
    ∧ sortedDesc (get_existing_json_versions c7Dir)
        = Except.ok ["1.10.0", "1.9.0"] := by
  refine ⟨by decide, ?_⟩
  obtain ⟨l, hs, -, -, -⟩ :=
    C7_aggregate_order c7Dir "2026-01-01 00:00:00" (by decide)
  have h1 : sortedDesc (get_existing_json_versions c7Dir)
      = Except.ok ["1.10.0", "1.9.0"] := rfl
  exact hs.trans (hs.symm.trans h1)

/-! # Claim C10 -/

/-- C10: without an explicit version subset the newest-first sort converts
every dot-separated component of every non-underscore stem with int, so a
single record file whose stem is not purely numeric makes generation raise
(ValueError) instead of rendering or skipping that record; when every stem
parses, generation succeeds. -/
theorem C10_nonnumeric_stem_crash (dir : NotesDir) (now : String) :
    (∀ v, v ∈ get_existing_json_versions dir → verKey v = none →
       generate_full_release_notes dir now none =
         Except.error "ValueError: invalid literal for int")
    ∧ ((∀ v ∈ get_existing_json_versions dir, (verKey v).isSome) →
       ∃ out, generate_full_release_notes dir now none = Except.ok out) := by
  constructor
  · intro v hv hk
    have hkeyed : keyedVersions (get_existing_json_versions dir) = none := by
      unfold keyedVersions
      exact mapOpt_eq_none _ _ v hv (by rw [hk])
    exact generate_none_error dir now (sortedDesc_error _ hkeyed)
  · intro h
    obtain ⟨keyedL, hk⟩ := keyedVersions_isSome _ h
    exact ⟨_, generate_none_eval dir now _ (sortedDesc_of_keyed _ _ hk)⟩

/-- Directory holding a snapshot-named record file. -/
def c10Dir : NotesDir :=
  [("1.8.0-SNAPSHOT", some (mkNoteRecord "1.8.0-SNAPSHOT" "v1.8.0-SNAPSHOT"))]

/-- C10 witness: a 1.8.0-SNAPSHOT.json record makes no-subset generation
fail with the modelled ValueError. -/
theorem C10_nonnumeric_stem_crash_witness :
    generate_full_release_notes c10Dir "2026-01-01 00:00:00" none
      = Except.error "ValueError: invalid literal for int" :=
  (C10_nonnumeric_stem_crash c10Dir "2026-01-01 00:00:00").1
    "1.8.0-SNAPSHOT" (by decide) (by decide)

/-! # Claim C5 -/

/-- The malformed record of the claim: file stem 1.8.0, version field
1.7.0. -/
def c5BadRec : ReleaseNoteRecord :=
  { version := some "1.7.0", date := some "2025-06-01", tag := some "v1.8.0" }

def c5Dir : NotesDir := [("1.8.0", some c5BadRec)]

/-- C5 counterexample: the 1.8.0.json record with version field 1.7.0 has
a validation error and is still rendered with a warning, but the CI check
mode exits 0 on it — check_missing_notes only compares tag names against
file stems and never validates record contents, so a validation error is
not fatal for check mode, contrary to the claim. -/
theorem C5_counterexample :
    validate_json c5BadRec "1.8.0" =
      ["Version mismatch: file is 1.8.0.json but contains version 1.7.0"]
    ∧ check_missing_notes ["v1.8.0"] c5Dir false = 0
    ∧ generate_full_release_notes c5Dir "2026-02-02 00:00:00" (some ["1.8.0"]) =
        Except.ok (headerLines "2026-02-02 00:00:00"
            ++ [generate_markdown_for_version c5BadRec, "---", ""],
          [("1.8.0",
            ["Version mismatch: file is 1.8.0.json but contains version 1.7.0"])]) := by
  refine ⟨by decide, by decide, by rfl⟩

/-- C5 amended: record validation errors are non-fatal for generation —
every loadable record in the requested set is rendered, with its
validation errors collected as warnings — while the strict CI check mode
fails on missing records only: it exits 0 exactly when warn-only is set or
every valid git tag has a record file, independent of any validation
errors inside the records. -/
theorem generate_subset_eval (dir : NotesDir) (now : String)
    (vs : List String) (l : List String)
    (hf : vs.filter (fun x => (get_existing_json_versions dir).contains x) = l) :
    generate_full_release_notes dir now (some vs) =
      (if l.isEmpty
       then Except.ok (headerLines now ++ ["No release notes available.", ""], [])
       else Except.ok (headerLines now ++ l.flatMap (blockFor dir),
                       l.flatMap (warnsFor dir))) := by
  subst hf
  show (if (vs.filter (fun x => (get_existing_json_versions dir).contains x)).isEmpty
        then Except.ok (headerLines now ++ ["No release notes available.", ""], [])
        else Except.ok ((vs.filter
            (fun x => (get_existing_json_versions dir).contains x)).foldl
              (renderStep dir) (headerLines now, []))) = _
  rcases hfe : vs.filter (fun x => (get_existing_json_versions dir).contains x)
      with _ | ⟨x, t⟩
  · rfl
  · rw [renderFold]
    simp

theorem C5_validation_fatality_amended (dir : NotesDir) (now v : String)
    (rec : ReleaseNoteRecord) (tags : List String) (warnOnly : Bool)
    (h1 : load_release_notes dir v = some rec)
    (h2 : v ∈ get_existing_json_versions dir) :
    generate_full_release_notes dir now (some [v]) =
      Except.ok (headerLines now ++ [generate_markdown_for_version rec, "---", ""],
                 if validate_json rec v ≠ [] then [(v, validate_json rec v)] else [])
    ∧ (check_missing_notes tags dir warnOnly = 0 ↔
        (warnOnly = true ∨ ∀ t ∈ filter_valid_tags tags,
          tag_to_version t ∈ get_existing_json_versions dir)) := by
  constructor
  · have hf : [v].filter (fun x => (get_existing_json_versions dir).contains x)
        = [v] := by
      rw [List.filter_cons, if_pos (by simpa using h2)]
      rfl
    rw [generate_subset_eval dir now [v] [v] hf]
    simp [blockFor, warnsFor, h1]
  · unfold check_missing_notes
    by_cases hm : (((filter_valid_tags tags).map tag_to_version).filter
        (fun x => !(get_existing_json_versions dir).contains x)).isEmpty
    · rw [if_pos hm]
      rw [List.isEmpty_iff, List.filter_eq_nil_iff] at hm
      constructor
      · intro _
        right
        intro t ht
        have hmt := hm (tag_to_version t) (List.mem_map.mpr ⟨t, ht, rfl⟩)
        simpa using hmt
      · intro _
        rfl
    · rw [if_neg hm]
      cases warnOnly with
      | true => simp
      | false =>
        simp only [Bool.false_eq_true, if_false]
        constructor
        · intro h01
          exact absurd h01 (by decide)
        · intro hor
          rcases hor with hw | hall
          · exact hw.elim
          · exfalso
            apply hm
            rw [List.isEmpty_iff, List.filter_eq_nil_iff]
            intro x hx
            obtain ⟨t, ht, rfl⟩ := List.mem_map.mp hx
            simp [hall t ht]

/-- C5 amended witness at the malformed 1.8.0 record. -/
theorem C5_validation_fatality_amended_witness :
    generate_full_release_notes c5Dir "2026-03-03 00:00:00" (some ["1.8.0"]) =
      Except.ok (headerLines "2026-03-03 00:00:00"
            ++ [generate_markdown_for_version c5BadRec, "---", ""],
          if validate_json c5BadRec "1.8.0" ≠ [] then
            [("1.8.0", validate_json c5BadRec "1.8.0")] else [])
    ∧ (check_missing_notes ["v1.8.0"] c5Dir false = 0 ↔
        (false = true ∨ ∀ t ∈ filter_valid_tags ["v1.8.0"],
          tag_to_version t ∈ get_existing_json_versions c5Dir)) :=
  C5_validation_fatality_amended c5Dir "2026-03-03 00:00:00" "1.8.0" c5BadRec
    ["v1.8.0"] false (by decide) (by decide)
